import Mathlib

/-!
Verification of the espresso notification-detection core.

This file gives a shallow embedding of the detection logic of the
`espresso` repository and proves (or refutes) the frozen claims about it.

Embedding conventions:

* Wall-clock instants and audio levels are modelled as rationals (`ℚ`);
  the Python code computes with IEEE floats, whose exact rounding is not
  part of any claim, so exact arithmetic is the faithful reading.
* The real-valued signal mathematics of `audio_fingerprint.py`
  (square roots, discrete Fourier transform) is modelled over `ℝ`.
* Fallible Python code (statements that can raise) is modelled with
  `Except String`.
* External collaborators (the sounddevice capture driver, the Quartz
  window capture, the osascript foreground query, the notification
  callbacks) are modelled as explicit parameters: a callback is a flag
  saying whether it is registered, plus for the screen/GUI paths a flag
  or `Except` value saying whether the external call succeeded.
-/

/-! ## Audio monitor (`espresso/audio_monitor.py`) -/

/-- Events produced by one invocation of `AudioMonitor.audio_callback`:
a notification spike carrying its detection level, a call start, a call end. -/
inductive AudioEvent where
  | audio_spike (level : ℚ)
  | call_start
  | call_end
deriving DecidableEq

/-- Constructor parameters of `AudioMonitor` together with the fixed
`notification_cooldown` and the three optional callbacks (`on_notification`,
`on_call_start`, `on_call_end`), each modelled by a flag saying whether the
callback is registered (`None` in Python reads as falsy). -/
structure AMConfig where
  notification_threshold : ℚ
  call_threshold : ℚ
  call_duration : ℚ
  notification_cooldown : ℚ
  on_notification_set : Bool
  on_call_start_set : Bool
  on_call_end_set : Bool
deriving DecidableEq

/-- Mutable detection state of `AudioMonitor`: `last_notification_time`,
`call_start_time`, `in_call`, and the decaying peak tracker
(`peak_level`, `last_peak_time`). -/
structure AMState where
  last_notification_time : Option ℚ
  call_start_time : Option ℚ
  in_call : Bool
  peak_level : ℚ
  last_peak_time : Option ℚ
deriving DecidableEq

/-- Peak tracking step of `audio_callback` (lines 107-116): raise the tracked
peak to the block RMS when exceeded, then reset the peak to zero when its
timestamp is more than 0.5 s old. -/
def peakStep (peak : ℚ) (lastPeak : Option ℚ) (now rms : ℚ) : ℚ × Option ℚ :=
  let p := if rms > peak then (rms, some now) else (peak, lastPeak)
  match p.2 with
  | some t => if now - t > 1/2 then (0, none) else p
  | none => p

/-- Cooldown test of `audio_callback` (lines 122-123): passes when
`last_notification_time` is unset or strictly more than the cooldown ago. -/
def cooldownOk (lastNotif : Option ℚ) (now cooldown : ℚ) : Bool :=
  match lastNotif with
  | none => true
  | some t => decide (now - t > cooldown)

/-- Notification-spike step of `audio_callback` (lines 118-133): when the
detection level exceeds the threshold and the cooldown test passes,
`last_notification_time` is set to `now` and, only if a callback is
registered and the detector is not in a call, a spike event is emitted. -/
def spikeStep (cfg : AMConfig) (lastNotif : Option ℚ) (inCall : Bool)
    (now detLevel : ℚ) : Option ℚ × List AudioEvent :=
  if detLevel > cfg.notification_threshold ∧
      cooldownOk lastNotif now cfg.notification_cooldown = true then
    (some now,
      if cfg.on_notification_set = true ∧ inCall = false then
        [AudioEvent.audio_spike detLevel]
      else [])
  else (lastNotif, [])

/-- Sustained-audio (call) step of `audio_callback` (lines 135-162), acting on
the pair `(call_start_time, in_call)`. -/
def callStep (cfg : AMConfig) (callStart : Option ℚ) (inCall : Bool)
    (now rms : ℚ) : (Option ℚ × Bool) × List AudioEvent :=
  if rms > cfg.call_threshold then
    match callStart with
    | none => ((some now, inCall), [])
    | some t0 =>
      if now - t0 ≥ cfg.call_duration ∧ inCall = false then
        ((some t0, true),
          if cfg.on_call_start_set = true then [AudioEvent.call_start] else [])
      else ((some t0, inCall), [])
  else
    ((none, false),
      if inCall = true ∧ cfg.on_call_end_set = true then [AudioEvent.call_end] else [])

/-- One invocation of `AudioMonitor.audio_callback` on a block arriving at
instant `now` with root-mean-square level `rms`: peak tracking, then the
notification-spike test on `max rms peak`, then the call test on `rms`.
Returns the updated state and the emitted events in order. -/
def audio_callback (cfg : AMConfig) (st : AMState) (now rms : ℚ) :
    AMState × List AudioEvent :=
  let pk := peakStep st.peak_level st.last_peak_time now rms
  let det := max rms pk.1
  let sp := spikeStep cfg st.last_notification_time st.in_call now det
  let cl := callStep cfg st.call_start_time st.in_call now rms
  ({ last_notification_time := sp.1
     call_start_time := cl.1.1
     in_call := cl.1.2
     peak_level := pk.1
     last_peak_time := pk.2 },
   sp.2 ++ cl.2)

/-- Detection level used by the spike test: the maximum of the block RMS and
the tracked peak after the peak-tracking step. -/
def detectionLevel (st : AMState) (now rms : ℚ) : ℚ :=
  max rms (peakStep st.peak_level st.last_peak_time now rms).1

/-- Feeding a sequence of `(time, rms)` blocks through `audio_callback`,
accumulating the emitted events in delivery order. -/
def processBlocks (cfg : AMConfig) (st : AMState) :
    List (ℚ × ℚ) → AMState × List AudioEvent
  | [] => (st, [])
  | b :: l =>
    let r := audio_callback cfg st b.1 b.2
    let rest := processBlocks cfg r.1 l
    (rest.1, r.2 ++ rest.2)

/-- Whether an event is a call event (`call_start` or `call_end`). -/
def isCallEvent : AudioEvent → Bool
  | AudioEvent.call_start => true
  | AudioEvent.call_end => true
  | AudioEvent.audio_spike _ => false

/-- Whether an event is a notification spike. -/
def isSpikeEvent : AudioEvent → Bool
  | AudioEvent.audio_spike _ => true
  | _ => false

/-- The call events of an event list, in order. -/
def callEvents (l : List AudioEvent) : List AudioEvent := l.filter isCallEvent

/-- The notification-spike events of an event list, in order. -/
def spikeEvents (l : List AudioEvent) : List AudioEvent := l.filter isSpikeEvent

/-- Model of `AudioMonitor.__init__` (lines 19-69): raises `ImportError` when the
`sounddevice` module is missing, otherwise stores all parameters verbatim
(no validation of thresholds or durations) and initialises the detection
state with no callbacks registered, `notification_cooldown = 2.0`, and an
idle peak tracker. -/
def AudioMonitor_init (sounddevice_present : Bool)
    (notification_threshold call_threshold call_duration : ℚ) :
    Except String (AMConfig × AMState) :=
  if sounddevice_present = false then
    Except.error "sounddevice is not installed"
  else
    Except.ok
      ({ notification_threshold := notification_threshold
         call_threshold := call_threshold
         call_duration := call_duration
         notification_cooldown := 2
         on_notification_set := false
         on_call_start_set := false
         on_call_end_set := false },
       { last_notification_time := none
         call_start_time := none
         in_call := false
         peak_level := 0
         last_peak_time := none })

/-! ## Screen monitor cooldown commit rule (`espresso/screen_monitor.py`) -/

/-- Mutable state of `ScreenMonitor` relevant to the cooldown commit rule. -/
structure SMState where
  last_detection_time : Option ℚ
  scan_count : ℕ
deriving DecidableEq

/-- Model of `ScreenMonitor._should_trigger` (lines 377-388): true when no detection has
been committed yet, or at least `detection_cooldown` seconds have elapsed. -/
def should_trigger (st : SMState) (now cooldown : ℚ) : Bool :=
  match st.last_detection_time with
  | none => true
  | some t => decide (now - t ≥ cooldown)

/-- Dispatch tail of `ScreenMonitor._scan_once` (lines 397 and 447-480).
The externally produced scan outcome is the parameter `detected`;
`callback_set` says whether a callback is registered and `callback_ok`
whether invoking it returns normally (rather than raising).
Returns the new state and whether the callback was invoked.
`last_detection_time` is assigned only on the line after a successful
callback invocation. -/
def scan_dispatch (st : SMState) (now cooldown : ℚ)
    (detected callback_set callback_ok : Bool) : SMState × Bool :=
  let st1 : SMState := { st with scan_count := st.scan_count + 1 }
  if detected = true ∧ callback_set = true ∧ should_trigger st1 now cooldown = true then
    (if callback_ok = true then
       { st1 with last_detection_time := some now }
     else st1,
     true)
  else (st1, false)

/-! ## GUI dispatcher foreground suppression (`espresso/gui.py`) -/

/-- Outcome of the external osascript foreground query as seen by
`EspressoApp.is_app_in_foreground`: either the frontmost application name
(stdout, stripped) or any exception (subprocess failure or the 2 s timeout). -/
def ForegroundQuery := Except Unit String

/-- Model of `EspressoApp.is_app_in_foreground` (lines 331-346): compares the queried
frontmost application with the target application name; any exception is
caught and yields `false`. -/
def is_app_in_foreground (app_name : String) (q : ForegroundQuery) : Bool :=
  match q with
  | Except.error _ => false
  | Except.ok front => front == app_name

/-- Model of `EspressoApp.on_audio_notification` (lines 348-359): returns whether the
user-visible notification is delivered (suppressed only when the target
application is in the foreground). -/
def on_audio_notification_delivers (app_name : String) (q : ForegroundQuery) : Bool :=
  !(is_app_in_foreground app_name q)

/-- Model of `EspressoApp.on_call_start` (lines 361-372): same suppression rule. -/
def on_call_start_delivers (app_name : String) (q : ForegroundQuery) : Bool :=
  !(is_app_in_foreground app_name q)

/-- Model of `EspressoApp.on_screen_notification` (lines 446-479): same suppression
rule; the OCR text only changes the message body, never the decision. -/
def on_screen_notification_delivers (app_name : String) (q : ForegroundQuery) : Bool :=
  !(is_app_in_foreground app_name q)

/-! ## Audio fingerprinting (`espresso/audio_fingerprint.py`)

The float arithmetic of the source is modelled exactly over `ℝ`. -/

/-- A fingerprint as produced by `AudioFingerprint.create_fingerprint` or read
back from the JSON store. Stored JSON documents may lack keys; `compare`
reads missing numeric keys as their Python default `0`, a missing profile
as `[]`, and a missing or empty `energy_distribution` dict (falsy in Python)
as `none`. The field defaults encode those `dict.get` defaults. -/
structure Fingerprint where
  duration : ℝ := 0
  active_duration : ℝ := 0
  peak_level : ℝ := 0
  mean_level : ℝ := 0
  rms_profile : List ℝ := []
  top_frequencies : List ℝ := []
  energy_distribution : Option (ℝ × ℝ × ℝ) := none

/-- The value of `np.max` over a nonempty list (callers guard emptiness). -/
def listMax : List ℝ → ℝ
  | [] => 0
  | h :: t => t.foldl max h

/-- The chunking of the Python loop `for i in range(0, len(samples), chunk)`:
successive slices `samples[i:i+chunk]` for `i = 0, chunk, 2*chunk, ...`. -/
def chunksOf (l : List ℝ) (n : ℕ) : List (List ℝ) :=
  (List.range ((l.length + n - 1) / n)).map (fun j => (l.drop (j * n)).take n)

/-- Per-chunk RMS `sqrt(mean(chunk**2))`. -/
noncomputable def chunkRms (c : List ℝ) : ℝ :=
  Real.sqrt ((c.map (fun v => v ^ 2)).sum / c.length)

/-- The RMS profile: per-chunk RMS of every nonempty 10 ms chunk. -/
noncomputable def rmsProfile (samples : List ℝ) (chunk : ℕ) : List ℝ :=
  (chunksOf samples chunk).filterMap
    (fun c => if c.length = 0 then none else some (chunkRms c))

/-- Coefficient `k` of `np.fft.rfft(samples)`:
`X_k = sum_j x_j * exp(-2*pi*i*j*k/n)`. -/
noncomputable def dftCoeff (x : List ℝ) (k : ℕ) : ℂ :=
  ∑ j ∈ Finset.range x.length,
    (x.getD j 0 : ℂ) * Complex.exp (-(2 * Real.pi * Complex.I * j * k) / x.length)

/-- The magnitude spectrum `np.abs(np.fft.rfft(samples))`, one magnitude per
frequency bin `k = 0, ..., n/2`. -/
noncomputable def magnitudes (x : List ℝ) : List ℝ :=
  (List.range (x.length / 2 + 1)).map (fun k => Complex.abs (dftCoeff x k))

/-- Frequency of bin `k` from `np.fft.rfftfreq(n, 1/sample_rate)`:
`k * sample_rate / n`. -/
noncomputable def freqOf (sr n k : ℕ) : ℝ := (k : ℝ) * sr / n

/-- Total spectral magnitude `np.sum(magnitudes)`. -/
noncomputable def totalMag (x : List ℝ) : ℝ := (magnitudes x).sum

/-- Summed magnitudes of the low (< 500 Hz), mid (500-2000 Hz) and
high (>= 2000 Hz) bands. -/
noncomputable def energyBands (x : List ℝ) (sr : ℕ) : ℝ × ℝ × ℝ :=
  let n := x.length
  let mags := magnitudes x
  (∑ k ∈ Finset.range mags.length,
     if freqOf sr n k < 500 then mags.getD k 0 else 0,
   ∑ k ∈ Finset.range mags.length,
     if 500 ≤ freqOf sr n k ∧ freqOf sr n k < 2000 then mags.getD k 0 else 0,
   ∑ k ∈ Finset.range mags.length,
     if 2000 ≤ freqOf sr n k then mags.getD k 0 else 0)

/-- The `energy_distribution` dict: band sums normalised by the total
magnitude, or all zero when the total is zero. The dict itself is always
present (and truthy) on a freshly created fingerprint. -/
noncomputable def energyDistribution (x : List ℝ) (sr : ℕ) : Option (ℝ × ℝ × ℝ) :=
  let b := energyBands x sr
  if totalMag x > 0 then some (b.1 / totalMag x, b.2.1 / totalMag x, b.2.2 / totalMag x)
  else some (0, 0, 0)

/-- The five dominant frequencies `freqs[np.argsort(magnitudes)[-5:]]`:
bins sorted by ascending magnitude, last five kept. `np.argsort` uses an
unstable sort, so the order among equal magnitudes is unspecified there;
a stable insertion sort fixes one admissible order here. No claim depends
on this field. -/
noncomputable def topFrequencies (x : List ℝ) (sr : ℕ) : List ℝ :=
  let mags := magnitudes x
  let pairs := (List.range mags.length).map (fun k => (mags.getD k 0, freqOf sr x.length k))
  let sorted := List.insertionSort (fun a b : ℝ × ℝ => a.1 ≤ b.1) pairs
  (sorted.map Prod.snd).drop (sorted.length - 5)

/-- The peak level of the window, `np.max(np.abs(samples))`. -/
noncomputable def peakLevel (samples : List ℝ) : ℝ :=
  listMax (samples.map (fun v => |v|))

/-- The mean level of the window, `np.mean(np.abs(samples))`. -/
noncomputable def meanAbs (samples : List ℝ) : ℝ :=
  (samples.map (fun v => |v|)).sum / samples.length

/-- The active-duration computation (lines 78-87): the span from the first to
one past the last sample whose absolute value exceeds twice the mean level,
in seconds; `0.0` when no sample exceeds it. `np.argmax` of a boolean array
is the index of its first `True`, i.e. `List.findIdx`. -/
noncomputable def activeDuration (samples : List ℝ) (sr : ℕ) : ℝ :=
  let thr := meanAbs samples * 2
  if samples.any (fun v => decide (|v| > thr)) = true then
    (((samples.length - samples.reverse.findIdx (fun v => decide (|v| > thr))) -
      samples.findIdx (fun v => decide (|v| > thr)) : ℕ) : ℝ) / sr
  else 0

/-- Model of `AudioFingerprint.create_fingerprint` (lines 50-123). `int(0.01 *
sample_rate)` is the 10 ms chunk size `sample_rate / 100` (integer floor).
Two statements can raise: `range(0, n, 0)` raises `ValueError` when the
chunk size is zero (sample rate below 100), and `np.max` raises
`ValueError` on an empty window; both are modelled as `Except.error`. -/
noncomputable def create_fingerprint (samples : List ℝ) (sr : ℕ) :
    Except String Fingerprint :=
  if sr / 100 = 0 then
    Except.error "range() arg 3 must not be zero"
  else if samples.isEmpty then
    Except.error "zero-size array to reduction operation maximum"
  else
    Except.ok
      { duration := (samples.length : ℝ) / sr
        active_duration := activeDuration samples sr
        peak_level := peakLevel samples
        mean_level := meanAbs samples
        rms_profile := (rmsProfile samples (sr / 100)).take 50
        top_frequencies := topFrequencies samples sr
        energy_distribution := energyDistribution samples sr }

/-- Arithmetic mean of a list (used by `np.mean` on the score list and by
`np.corrcoef` internally). -/
noncomputable def lmean (l : List ℝ) : ℝ := l.sum / l.length

/-- Sum of centred products over the common index range, the quantity
`np.corrcoef` divides by its two centred self-products (the `1/(n-1)`
factors cancel). -/
noncomputable def centeredDot (x y : List ℝ) : ℝ :=
  ∑ i ∈ Finset.range (min x.length y.length),
    (x.getD i 0 - lmean x) * (y.getD i 0 - lmean y)

/-- The value `np.corrcoef(x, y)[0, 1]`: the Pearson correlation, `none` exactly when
the result is NaN, i.e. when one of the centred self-products vanishes
(a constant or singleton profile). -/
noncomputable def pearson (x y : List ℝ) : Option ℝ :=
  if centeredDot x x = 0 ∨ centeredDot y y = 0 then none
  else some (centeredDot x y /
    (Real.sqrt (centeredDot x x) * Real.sqrt (centeredDot y y)))

/-- The max-normalisation `rms = rms / np.max(rms)` applied when the maximum
is positive. -/
noncomputable def normalizeProfile (l : List ℝ) : List ℝ :=
  if listMax l > 0 then l.map (fun v => v / listMax l) else l

/-- The `scores` list built by `AudioFingerprint.compare_fingerprints`
(lines 136-188): one entry per computable component, in source order
(active duration with doubled penalty, peak level, Pearson correlation of
the truncated max-normalised RMS profiles, energy-distribution mean
absolute difference). -/
noncomputable def compareScores (fp1 fp2 : Fingerprint) : List ℝ :=
  let durScores : List ℝ :=
    if fp1.active_duration > 0 ∧ fp2.active_duration > 0 then
      [max 0 (1 - |fp1.active_duration - fp2.active_duration| /
        max fp1.active_duration fp2.active_duration * 2)]
    else []
  let peakScores : List ℝ :=
    if fp1.peak_level > 0 ∧ fp2.peak_level > 0 then
      [max 0 (1 - |fp1.peak_level - fp2.peak_level| /
        max fp1.peak_level fp2.peak_level)]
    else []
  let shapeScores : List ℝ :=
    if fp1.rms_profile ≠ [] ∧ fp2.rms_profile ≠ [] then
      let m := min fp1.rms_profile.length fp2.rms_profile.length
      match pearson (normalizeProfile (fp1.rms_profile.take m))
          (normalizeProfile (fp2.rms_profile.take m)) with
      | some c => [c]
      | none => []
    else []
  let energyScores : List ℝ :=
    match fp1.energy_distribution, fp2.energy_distribution with
    | some e1, some e2 =>
      [max 0 (1 - (|e1.1 - e2.1| + |e1.2.1 - e2.2.1| + |e1.2.2 - e2.2.2|) / 3)]
    | _, _ => []
  durScores ++ peakScores ++ shapeScores ++ energyScores

/-- Model of `AudioFingerprint.compare_fingerprints` (lines 125-193): the unweighted
mean of the computable component scores, `0.0` when no component is
computable. -/
noncomputable def compare_fingerprints (fp1 fp2 : Fingerprint) : ℝ :=
  if compareScores fp1 fp2 = [] then 0
  else (compareScores fp1 fp2).sum / (compareScores fp1 fp2).length

/-- The loop body of `AudioFingerprint.identify_sound` (lines 215-219): keep
`(best_match, best_score)`, replacing only on a strictly greater score. -/
noncomputable def bestStep (fp : Fingerprint) (acc : Option String × ℝ)
    (entry : String × Fingerprint) : Option String × ℝ :=
  if compare_fingerprints fp entry.2 > acc.2 then
    (some entry.1, compare_fingerprints fp entry.2)
  else acc

/-- The loop and return of `AudioFingerprint.identify_sound` after the input
fingerprint has been built: fold over the stored fingerprints starting from
`(None, 0.0)`; return the tracked name only when the tracked score reaches
`min_confidence`. -/
noncomputable def identifyCore (fp : Fingerprint)
    (store : List (String × Fingerprint)) (minConf : ℝ) : Option String × ℝ :=
  let best := store.foldl (bestStep fp) ((none : Option String), (0 : ℝ))
  (if best.2 ≥ minConf then best.1 else none, best.2)

/-- Model of `AudioFingerprint.identify_sound` (lines 195-224): build a fingerprint for
the input (propagating its exceptions), then scan the store. The store is
the JSON-backed name-to-fingerprint mapping in insertion order. -/
noncomputable def identify_sound (store : List (String × Fingerprint))
    (samples : List ℝ) (sr : ℕ) (minConf : ℝ) :
    Except String (Option String × ℝ) :=
  (create_fingerprint samples sr).map (fun fp => identifyCore fp store minConf)

/-- A concrete non-degenerate fingerprint: positive active duration and peak,
a non-constant RMS profile, and an energy distribution. -/
noncomputable def fpNondegenerate : Fingerprint :=
  { active_duration := 1
    peak_level := 1
    rms_profile := [0, 1]
    energy_distribution := some (1, 0, 0) }

/-- A stored fingerprint carrying only an RMS profile, as read back from a
JSON document whose other keys are absent (they default to `0`, `[]` and an
absent energy dict in `compare_fingerprints`). -/
noncomputable def fpShapeOnly : Fingerprint := { rms_profile := [1, 0] }

/-- A fingerprint whose only populated feature is the RMS profile `[0, 1]`. -/
noncomputable def fpShapeRising : Fingerprint := { rms_profile := [0, 1] }

/-- A fingerprint whose only populated feature is a peak level of 1. -/
noncomputable def fpPeakOnly : Fingerprint := { peak_level := 1 }

/-! ## Helper lemmas -/

theorem spikeEvents_callStep (cfg : AMConfig) (c : Option ℚ) (i : Bool) (now rms : ℚ) :
    spikeEvents (callStep cfg c i now rms).2 = [] := by
  cases c <;> simp only [callStep] <;> split_ifs <;>
    simp [spikeEvents, isSpikeEvent, List.filter]

theorem callEvents_spikeStep (cfg : AMConfig) (l : Option ℚ) (i : Bool) (now d : ℚ) :
    callEvents (spikeStep cfg l i now d).2 = [] := by
  unfold spikeStep callEvents
  split_ifs <;> rfl

theorem audio_callback_events (cfg : AMConfig) (st : AMState) (now rms : ℚ) :
    (audio_callback cfg st now rms).2 =
      (spikeStep cfg st.last_notification_time st.in_call now
        (detectionLevel st now rms)).2 ++
      (callStep cfg st.call_start_time st.in_call now rms).2 := rfl

theorem audio_callback_lnt (cfg : AMConfig) (st : AMState) (now rms : ℚ) :
    (audio_callback cfg st now rms).1.last_notification_time =
      (spikeStep cfg st.last_notification_time st.in_call now
        (detectionLevel st now rms)).1 := rfl

theorem audio_callback_call (cfg : AMConfig) (st : AMState) (now rms : ℚ) :
    ((audio_callback cfg st now rms).1.call_start_time,
     (audio_callback cfg st now rms).1.in_call) =
      (callStep cfg st.call_start_time st.in_call now rms).1 := rfl

/-! ## Claim C10 -/

/-- Claim C10: fail-open foreground suppression. If the external foreground
query raises or times out, `is_app_in_foreground` returns `false`, so the
audio-spike, call-start and screen notification handlers all deliver their
notification anyway; a query failure never suppresses an event. -/
theorem C10_fail_open_foreground (app_name : String) (e : Unit) :
    is_app_in_foreground app_name (Except.error e) = false ∧
    on_audio_notification_delivers app_name (Except.error e) = true ∧
    on_call_start_delivers app_name (Except.error e) = true ∧
    on_screen_notification_delivers app_name (Except.error e) = true :=
  ⟨rfl, rfl, rfl, rfl⟩

/-! ## Claim C9 -/

/-- Claim C9 counterexample: constructing the audio monitor with negative
`notification_threshold` and `call_threshold` succeeds and stores the
negative values verbatim; the claim said such a configuration is rejected
at construction time. -/
theorem C9_counterexample :
    (AudioMonitor_init true (-1/10) (-1/50) 3).map
      (fun p => (p.1.notification_threshold, p.1.call_threshold)) =
    Except.ok (-1/10, -1/50) := rfl

/-- Claim C9 (amended): `AudioMonitor.__init__` validates nothing about the
thresholds. The only construction-time failure is the missing `sounddevice`
dependency; with it present, any thresholds (negative included) are accepted
silently and stored verbatim, and the detector starts idle. -/
theorem C9_no_threshold_validation (nt ct cd : ℚ) :
    (∃ cfg st, AudioMonitor_init true nt ct cd = Except.ok (cfg, st) ∧
      cfg.notification_threshold = nt ∧ cfg.call_threshold = ct ∧
      cfg.call_duration = cd ∧ cfg.notification_cooldown = 2 ∧
      st.in_call = false ∧ st.last_notification_time = none ∧
      st.call_start_time = none) ∧
    AudioMonitor_init false nt ct cd =
      Except.error "sounddevice is not installed" :=
  ⟨⟨_, _, rfl, rfl, rfl, rfl, rfl, rfl, rfl, rfl⟩, rfl⟩

/-! ## Claim C6 -/

/-- Claim C6: screen-detection cooldown commit rule. `last_detection_time`
changes only when the scan detected, a callback was registered, the cooldown
had elapsed and the callback returned successfully, and then it becomes the
scan time; a raising callback or an unexpired cooldown leaves it unchanged;
and after a failed dispatch a later scan (at any time not before the failed
one) invokes the callback again rather than being suppressed. -/
theorem C6_cooldown_commit (st : SMState) (now t2 cooldown : ℚ)
    (detected cset ok : Bool) :
    ((scan_dispatch st now cooldown detected cset ok).1.last_detection_time ≠
        st.last_detection_time →
      ok = true ∧ detected = true ∧ cset = true ∧
      should_trigger st now cooldown = true ∧
      (scan_dispatch st now cooldown detected cset ok).1.last_detection_time =
        some now) ∧
    (ok = false →
      (scan_dispatch st now cooldown detected cset ok).1.last_detection_time =
        st.last_detection_time) ∧
    (should_trigger st now cooldown = false →
      (scan_dispatch st now cooldown detected cset ok).1.last_detection_time =
        st.last_detection_time) ∧
    (should_trigger st now cooldown = true → now ≤ t2 →
      (scan_dispatch (scan_dispatch st now cooldown true true false).1
        t2 cooldown true true ok).2 = true) := by
  obtain ⟨l, k⟩ := st
  refine ⟨?_, ?_, ?_, ?_⟩
  · intro hchg
    simp only [scan_dispatch] at hchg ⊢
    split_ifs at hchg ⊢ with h1 h2
    · exact ⟨h2, h1.1, h1.2.1, h1.2.2, rfl⟩
    · exact absurd rfl hchg
    · exact absurd rfl hchg
  · intro hok
    simp only [scan_dispatch]
    split_ifs with h1 h2
    · rw [hok] at h2
      cases h2
    · rfl
    · rfl
  · intro htrig
    simp only [scan_dispatch]
    split_ifs with h1 h2
    · have h3 : should_trigger ⟨l, k⟩ now cooldown = true := h1.2.2
      rw [htrig] at h3
      cases h3
    · rfl
    · rfl
  · intro htrig hle
    have hfail : (scan_dispatch ⟨l, k⟩ now cooldown true true false).1 =
        (⟨l, k + 1⟩ : SMState) := by
      simp only [scan_dispatch]
      split_ifs with h1 h2
      · exact h2.elim
      · rfl
      · rfl
    rw [hfail]
    have htrig2 : should_trigger ⟨l, k + 1 + 1⟩ t2 cooldown = true := by
      cases l with
      | none => rfl
      | some t =>
        simp only [should_trigger, decide_eq_true_eq] at htrig ⊢
        linarith
    simp only [scan_dispatch]
    rw [if_pos ⟨trivial, trivial, htrig2⟩]

/-! ## Claim C1 -/

theorem spikeEvents_append (a b : List AudioEvent) :
    spikeEvents (a ++ b) = spikeEvents a ++ spikeEvents b := by
  simp [spikeEvents]

theorem callEvents_append (a b : List AudioEvent) :
    callEvents (a ++ b) = callEvents a ++ callEvents b := by
  simp [callEvents]

theorem callEvents_audio_callback (cfg : AMConfig) (st : AMState) (now rms : ℚ) :
    callEvents (audio_callback cfg st now rms).2 =
      callEvents (callStep cfg st.call_start_time st.in_call now rms).2 := by
  rw [audio_callback_events, callEvents_append,
    callEvents_spikeStep, List.nil_append]

theorem spike_emission_rule (cfg : AMConfig) (st : AMState) (now rms : ℚ) :
    spikeEvents (audio_callback cfg st now rms).2 =
      if detectionLevel st now rms > cfg.notification_threshold ∧
          cooldownOk st.last_notification_time now cfg.notification_cooldown = true ∧
          cfg.on_notification_set = true ∧ st.in_call = false then
        [AudioEvent.audio_spike (detectionLevel st now rms)]
      else [] := by
  rw [audio_callback_events, spikeEvents_append, spikeEvents_callStep,
    List.append_nil]
  unfold spikeStep
  by_cases h1 : detectionLevel st now rms > cfg.notification_threshold ∧
      cooldownOk st.last_notification_time now cfg.notification_cooldown = true
  · by_cases h2 : cfg.on_notification_set = true ∧ st.in_call = false
    · rw [if_pos h1, if_pos h2, if_pos ⟨h1.1, h1.2, h2.1, h2.2⟩]
      rfl
    · rw [if_pos h1, if_neg h2, if_neg (by tauto)]
      rfl
  · rw [if_neg h1, if_neg (by tauto)]
    rfl

theorem lnt_update_rule (cfg : AMConfig) (st : AMState) (now rms : ℚ) :
    (audio_callback cfg st now rms).1.last_notification_time =
      if detectionLevel st now rms > cfg.notification_threshold ∧
          cooldownOk st.last_notification_time now cfg.notification_cooldown = true then
        some now
      else st.last_notification_time := by
  rw [audio_callback_lnt]
  unfold spikeStep
  split_ifs <;> rfl

theorem spike_pair_once (cfg : AMConfig) (st : AMState) (t1 t2 r1 r2 : ℚ)
    (hlnt : st.last_notification_time = none) (hic : st.in_call = false)
    (hset : cfg.on_notification_set = true)
    (hr1 : r1 > cfg.notification_threshold) (_hr2 : r2 > cfg.notification_threshold)
    (hcool : t2 - t1 < cfg.notification_cooldown) :
    (spikeEvents (processBlocks cfg st [(t1, r1), (t2, r2)]).2).length = 1 := by
  have hd1 : detectionLevel st t1 r1 > cfg.notification_threshold :=
    lt_of_lt_of_le hr1 (le_max_left _ _)
  have hcd1 : cooldownOk st.last_notification_time t1 cfg.notification_cooldown = true := by
    rw [hlnt]
    rfl
  have he1 : spikeEvents (audio_callback cfg st t1 r1).2 =
      [AudioEvent.audio_spike (detectionLevel st t1 r1)] := by
    rw [spike_emission_rule, if_pos ⟨hd1, hcd1, hset, hic⟩]
  have hl1 : (audio_callback cfg st t1 r1).1.last_notification_time = some t1 := by
    rw [lnt_update_rule, if_pos ⟨hd1, hcd1⟩]
  have hcd2 : cooldownOk (audio_callback cfg st t1 r1).1.last_notification_time t2
      cfg.notification_cooldown = false := by
    rw [hl1]
    unfold cooldownOk
    simp only [decide_eq_false_iff_not, not_lt]
    linarith
  have he2 : spikeEvents (audio_callback cfg (audio_callback cfg st t1 r1).1 t2 r2).2 = [] := by
    rw [spike_emission_rule, if_neg]
    intro h
    rw [hcd2] at h
    exact Bool.false_ne_true h.2.1
  show (spikeEvents ((audio_callback cfg st t1 r1).2 ++
    ((audio_callback cfg (audio_callback cfg st t1 r1).1 t2 r2).2 ++ []))).length = 1
  rw [spikeEvents_append, spikeEvents_append, he1, he2]
  rfl

/-- Claim C1 counterexample. First conjunct: a single block processed while
`in_call = true`, with detection level `1/2` above the threshold `1/10` and
no previous notification, emits no `audio_spike` event yet still updates
`last_notification_time` to the block time, refuting "no lastNotificationTime
update occurs when the InCall condition blocks emission". Second conjunct: a
block arriving exactly `notification_cooldown = 2` seconds after the last
notification emits nothing, refuting the "elapsed time at least the
cooldown" reading (the code requires strictly more). -/
theorem C1_counterexample :
    (audio_callback ⟨1/10, 1/50, 3, 2, true, true, true⟩
        ⟨none, some (-10), true, 0, none⟩ 0 (1/2) =
      (⟨some 0, some (-10), true, 1/2, some 0⟩, [])) ∧
    (audio_callback ⟨1/10, 1/50, 3, 2, true, true, true⟩
        ⟨some 0, none, false, 0, none⟩ 2 (1/2)).2 = [] := by
  constructor
  · simp only [audio_callback, peakStep, spikeStep, callStep, cooldownOk, max_def]
    norm_num
  · simp only [audio_callback, peakStep, spikeStep, callStep, cooldownOk, max_def]
    norm_num

/-- Claim C1 (amended): per processed block, an `audio_spike` event is emitted
exactly when `detectionLevel = max(block RMS, tracked peak)` exceeds
`notificationThreshold`, the cooldown test passes (`lastNotificationTime`
unset or strictly more than the cooldown elapsed), a notification callback
is registered, and the detector is not `InCall`; but `lastNotificationTime`
is updated whenever the level and cooldown conditions alone hold, even when
the `InCall` condition (or a missing callback) blocks emission. Two
spike-qualifying blocks less than the cooldown apart still produce exactly
one emitted event. -/
theorem C1_spike_rule (cfg : AMConfig) (st : AMState) (now rms t1 t2 r1 r2 : ℚ) :
    (spikeEvents (audio_callback cfg st now rms).2 =
      if detectionLevel st now rms > cfg.notification_threshold ∧
          cooldownOk st.last_notification_time now cfg.notification_cooldown = true ∧
          cfg.on_notification_set = true ∧ st.in_call = false then
        [AudioEvent.audio_spike (detectionLevel st now rms)]
      else []) ∧
    ((audio_callback cfg st now rms).1.last_notification_time =
      if detectionLevel st now rms > cfg.notification_threshold ∧
          cooldownOk st.last_notification_time now cfg.notification_cooldown = true then
        some now
      else st.last_notification_time) ∧
    (st.last_notification_time = none → st.in_call = false →
      cfg.on_notification_set = true →
      r1 > cfg.notification_threshold → r2 > cfg.notification_threshold →
      t2 - t1 < cfg.notification_cooldown →
      (spikeEvents (processBlocks cfg st [(t1, r1), (t2, r2)]).2).length = 1) :=
  ⟨spike_emission_rule cfg st now rms, lnt_update_rule cfg st now rms,
    fun h1 h2 h3 h4 h5 h6 => spike_pair_once cfg st t1 t2 r1 r2 h1 h2 h3 h4 h5 h6⟩

/-- Witness for C1: concrete two-block run, one second apart with a 2 s
cooldown, both blocks at level `1/2` over threshold `1/10`, produces exactly
one spike event. -/
theorem C1_witness :
    ((1 : ℚ)/2 > 1/10) ∧ ((1 : ℚ) - 0 < 2) ∧
    (spikeEvents (processBlocks ⟨1/10, 1/50, 3, 2, true, true, true⟩
      ⟨none, none, false, 0, none⟩ [(0, 1/2), (1, 1/2)]).2).length = 1 :=
  ⟨by norm_num, by norm_num,
    (C1_spike_rule ⟨1/10, 1/50, 3, 2, true, true, true⟩
      ⟨none, none, false, 0, none⟩ 0 0 0 1 (1/2) (1/2)).2.2
      rfl rfl rfl (by norm_num) (by norm_num) (by norm_num)⟩

/-! ## Claim C5 -/

theorem audio_callback_call_fields (cfg : AMConfig) (st : AMState) (now rms : ℚ)
    (p : Option ℚ × Bool) (e : List AudioEvent)
    (h : callStep cfg st.call_start_time st.in_call now rms = (p, e)) :
    (audio_callback cfg st now rms).1.call_start_time = p.1 ∧
    (audio_callback cfg st now rms).1.in_call = p.2 ∧
    callEvents (audio_callback cfg st now rms).2 = callEvents e := by
  have h1 : (audio_callback cfg st now rms).1.call_start_time =
      (callStep cfg st.call_start_time st.in_call now rms).1.1 := rfl
  have h2 : (audio_callback cfg st now rms).1.in_call =
      (callStep cfg st.call_start_time st.in_call now rms).1.2 := rfl
  refine ⟨?_, ?_, ?_⟩
  · rw [h1, h]
  · rw [h2, h]
  · rw [callEvents_audio_callback, h]

theorem processBlocks_sustained (cfg : AMConfig) (t0 : ℚ) :
    ∀ (l : List (ℚ × ℚ)) (st : AMState),
      st.call_start_time = some t0 → st.in_call = false →
      (∀ b ∈ l, b.2 > cfg.call_threshold ∧ b.1 - t0 < cfg.call_duration) →
      (processBlocks cfg st l).1.call_start_time = some t0 ∧
      (processBlocks cfg st l).1.in_call = false ∧
      callEvents (processBlocks cfg st l).2 = [] := by
  intro l
  induction l with
  | nil => exact fun st h1 h2 _ => ⟨h1, h2, rfl⟩
  | cons b l ih =>
    intro st hcst hic hl
    obtain ⟨hb, hbl⟩ := List.forall_mem_cons.mp hl
    have hstep : callStep cfg st.call_start_time st.in_call b.1 b.2 =
        ((some t0, false), []) := by
      rw [hcst, hic]
      unfold callStep
      rw [if_pos hb.1]
      exact if_neg (fun hc => absurd hc.1 (not_le.mpr hb.2))
    obtain ⟨h1, h2, h3⟩ := audio_callback_call_fields cfg st b.1 b.2 _ _ hstep
    have hrest := ih (audio_callback cfg st b.1 b.2).1 h1 h2 hbl
    refine ⟨hrest.1, hrest.2.1, ?_⟩
    show callEvents ((audio_callback cfg st b.1 b.2).2 ++
      (processBlocks cfg (audio_callback cfg st b.1 b.2).1 l).2) = []
    rw [callEvents_append, h3, hrest.2.2]
    rfl

theorem processBlocks_quiet (cfg : AMConfig) :
    ∀ (l : List (ℚ × ℚ)) (st : AMState),
      st.call_start_time = none → st.in_call = false →
      (∀ b ∈ l, b.2 ≤ cfg.call_threshold) →
      (processBlocks cfg st l).1.call_start_time = none ∧
      (processBlocks cfg st l).1.in_call = false ∧
      callEvents (processBlocks cfg st l).2 = [] := by
  intro l
  induction l with
  | nil => exact fun st h1 h2 _ => ⟨h1, h2, rfl⟩
  | cons b l ih =>
    intro st hcst hic hl
    obtain ⟨hb, hbl⟩ := List.forall_mem_cons.mp hl
    have hstep : callStep cfg st.call_start_time st.in_call b.1 b.2 =
        ((none, false), []) := by
      rw [hcst, hic]
      unfold callStep
      rw [if_neg (not_lt.mpr hb)]
      simp
    obtain ⟨h1, h2, h3⟩ := audio_callback_call_fields cfg st b.1 b.2 _ _ hstep
    have hrest := ih (audio_callback cfg st b.1 b.2).1 h1 h2 hbl
    refine ⟨hrest.1, hrest.2.1, ?_⟩
    show callEvents ((audio_callback cfg st b.1 b.2).2 ++
      (processBlocks cfg (audio_callback cfg st b.1 b.2).1 l).2) = []
    rw [callEvents_append, h3, hrest.2.2]
    rfl

theorem processBlocks_append (cfg : AMConfig) (st : AMState) (l1 l2 : List (ℚ × ℚ)) :
    processBlocks cfg st (l1 ++ l2) =
      ((processBlocks cfg (processBlocks cfg st l1).1 l2).1,
       (processBlocks cfg st l1).2 ++
         (processBlocks cfg (processBlocks cfg st l1).1 l2).2) := by
  induction l1 generalizing st with
  | nil => simp [processBlocks]
  | cons b l ih =>
    simp only [List.cons_append, processBlocks]
    have hsame : l.append l2 = l ++ l2 := rfl
    rw [hsame, ih]
    simp [List.append_assoc]

/-- Claim C5: call state machine. From the idle state (no `call_start_time`,
not `InCall`), an above-`callThreshold` block at `t0`, further
above-threshold blocks before `tn`, and a final above-threshold block at
`tn = t0 + callDuration` (so the loud blocks span exactly `callDuration`
seconds), followed immediately by at least one at-or-below-threshold block,
emit exactly the call events `call_start` then `call_end`, and leave the
detector idle again with `call_start_time` cleared. -/
theorem C5_call_state_machine (cfg : AMConfig) (st : AMState)
    (t0 r0 tn rn : ℚ) (mid below : List (ℚ × ℚ))
    (hstart : cfg.on_call_start_set = true) (hend : cfg.on_call_end_set = true)
    (hidle1 : st.call_start_time = none) (hidle2 : st.in_call = false)
    (hr0 : r0 > cfg.call_threshold) (hrn : rn > cfg.call_threshold)
    (hspan : tn = t0 + cfg.call_duration)
    (hmid : ∀ b ∈ mid, b.2 > cfg.call_threshold ∧ b.1 < tn)
    (hbelow : ∀ b ∈ below, b.2 ≤ cfg.call_threshold)
    (hbne : below ≠ []) :
    callEvents (processBlocks cfg st ((t0, r0) :: (mid ++ (tn, rn) :: below))).2 =
      [AudioEvent.call_start, AudioEvent.call_end] ∧
    (processBlocks cfg st
      ((t0, r0) :: (mid ++ (tn, rn) :: below))).1.call_start_time = none ∧
    (processBlocks cfg st ((t0, r0) :: (mid ++ (tn, rn) :: below))).1.in_call = false := by
  obtain ⟨bb, brest, rfl⟩ := List.exists_cons_of_ne_nil hbne
  simp only [processBlocks]
  rw [processBlocks_append]
  simp only [processBlocks]
  set st1 := (audio_callback cfg st t0 r0).1 with hst1
  set st2 := (processBlocks cfg st1 mid).1 with hst2
  set st3 := (audio_callback cfg st2 tn rn).1 with hst3
  set st4 := (audio_callback cfg st3 bb.1 bb.2).1 with hst4
  -- block 0 arms the call timer
  have hstep0 : callStep cfg st.call_start_time st.in_call t0 r0 =
      ((some t0, false), []) := by
    rw [hidle1, hidle2]
    unfold callStep
    rw [if_pos hr0]
  obtain ⟨hc0, hi0, he0⟩ := audio_callback_call_fields cfg st t0 r0 _ _ hstep0
  have hc0n : st1.call_start_time = some t0 := hc0
  have hi0n : st1.in_call = false := hi0
  have he0n : callEvents (audio_callback cfg st t0 r0).2 = [] := he0.trans rfl
  -- the mid blocks keep the timer armed and stay out of a call
  have hsust := processBlocks_sustained cfg t0 mid st1 hc0n hi0n
    (fun b hb => ⟨(hmid b hb).1, by
      have h := (hmid b hb).2
      rw [hspan] at h
      linarith⟩)
  have h2c : st2.call_start_time = some t0 := hsust.1
  have h2i : st2.in_call = false := hsust.2.1
  have h2e : callEvents (processBlocks cfg st1 mid).2 = [] := hsust.2.2
  -- the block at tn enters the call and emits call_start
  have hstepn : callStep cfg st2.call_start_time st2.in_call tn rn =
      ((some t0, true), [AudioEvent.call_start]) := by
    rw [h2c, h2i]
    unfold callStep
    rw [if_pos hrn]
    have hge : tn - t0 ≥ cfg.call_duration := by
      rw [hspan]
      linarith
    show (if tn - t0 ≥ cfg.call_duration ∧ (false = false) then
        ((some t0, true),
          if cfg.on_call_start_set = true then [AudioEvent.call_start] else [])
      else ((some t0, false), [])) = ((some t0, true), [AudioEvent.call_start])
    rw [if_pos ⟨hge, rfl⟩, if_pos hstart]
  obtain ⟨hcn, hin, hen⟩ := audio_callback_call_fields cfg st2 tn rn _ _ hstepn
  have hcnn : st3.call_start_time = some t0 := hcn
  have hinn : st3.in_call = true := hin
  have henn : callEvents (audio_callback cfg st2 tn rn).2 =
      [AudioEvent.call_start] := hen.trans rfl
  -- the first quiet block leaves the call and emits call_end
  have hstepb : callStep cfg st3.call_start_time st3.in_call bb.1 bb.2 =
      ((none, false), [AudioEvent.call_end]) := by
    rw [hcnn, hinn]
    unfold callStep
    rw [if_neg (not_lt.mpr (hbelow bb (List.mem_cons_self bb brest)))]
    rw [if_pos ⟨rfl, hend⟩]
  obtain ⟨hcb, hib, heb⟩ := audio_callback_call_fields cfg st3 bb.1 bb.2 _ _ hstepb
  have hcbn : st4.call_start_time = none := hcb
  have hibn : st4.in_call = false := hib
  have hebn : callEvents (audio_callback cfg st3 bb.1 bb.2).2 =
      [AudioEvent.call_end] := heb.trans rfl
  -- the remaining quiet blocks stay idle and silent
  have hq := processBlocks_quiet cfg brest st4 hcbn hibn
    (fun b hb => hbelow b (List.mem_cons_of_mem bb hb))
  refine ⟨?_, hq.1, hq.2.1⟩
  simp only [callEvents_append, he0n, henn, hebn, hq.2.2, h2e]
  rfl

/-- Witness for C5: loud blocks at t = 0 and t = 3 (spanning exactly the 3 s
call duration) followed by a quiet block at t = 4 produce exactly
`[call_start, call_end]` and leave the detector idle. -/
theorem C5_witness :
    ((1 : ℚ)/10 > 1/50) ∧ ((3 : ℚ) = 0 + 3) ∧
    callEvents (processBlocks ⟨1/10, 1/50, 3, 2, true, true, true⟩
        ⟨none, none, false, 0, none⟩
        ((0, 1/10) :: ([] ++ (3, 1/10) :: [(4, 0)]))).2 =
      [AudioEvent.call_start, AudioEvent.call_end] ∧
    (processBlocks ⟨1/10, 1/50, 3, 2, true, true, true⟩
        ⟨none, none, false, 0, none⟩
        ((0, 1/10) :: ([] ++ (3, 1/10) :: [(4, 0)]))).1.call_start_time = none := by
  have H := C5_call_state_machine ⟨1/10, 1/50, 3, 2, true, true, true⟩
    ⟨none, none, false, 0, none⟩ 0 (1/10) 3 (1/10) [] [(4, 0)]
    rfl rfl rfl rfl (by norm_num) (by norm_num) (by norm_num)
    (by simp)
    (by
      rintro b hb
      simp only [List.mem_singleton] at hb
      subst hb
      norm_num)
    (by simp)
  exact ⟨by norm_num, by norm_num, H.1, H.2.1⟩

/-- Witness for C6: with a committed detection at t = 0 and a 10 s cooldown,
a scan at t = 10 may trigger; after its dispatch fails, a scan at t = 12
invokes the callback again. -/
theorem C6_witness :
    should_trigger ⟨some 0, 0⟩ 10 10 = true ∧ ((10 : ℚ) ≤ 12) ∧
    (scan_dispatch (scan_dispatch ⟨some 0, 0⟩ 10 10 true true false).1
      12 10 true true true).2 = true := by
  have htr : should_trigger ⟨some 0, 0⟩ 10 10 = true := by
    simp [should_trigger]
  refine ⟨htr, by norm_num, ?_⟩
  exact (C6_cooldown_commit ⟨some 0, 0⟩ 10 12 10 true true true).2.2.2
    htr (by norm_num)

/-! ## Claim C2 -/

theorem foldl_max_fixed (l : List ℝ) : ∀ a, (∀ x ∈ l, x ≤ a) → l.foldl max a = a := by
  induction l with
  | nil => intro a _; rfl
  | cons x t ih =>
    intro a h
    simp only [List.foldl]
    rw [max_eq_left (h x (List.mem_cons_self x t))]
    exact ih a (fun y hy => h y (List.mem_cons_of_mem x hy))

theorem listMax_zero (l : List ℝ) (h : ∀ x ∈ l, x = 0) : listMax l = 0 := by
  cases l with
  | nil => rfl
  | cons x t =>
    unfold listMax
    rw [h x (List.mem_cons_self x t)]
    exact foldl_max_fixed t 0 (fun y hy => le_of_eq (h y (List.mem_cons_of_mem x hy)))

theorem peakLevel_zero (samples : List ℝ) (h : ∀ v ∈ samples, v = 0) :
    peakLevel samples = 0 := by
  unfold peakLevel
  apply listMax_zero
  intro x hx
  obtain ⟨v, hv, rfl⟩ := List.mem_map.mp hx
  rw [h v hv, abs_zero]

theorem meanAbs_zero (samples : List ℝ) (h : ∀ v ∈ samples, v = 0) :
    meanAbs samples = 0 := by
  unfold meanAbs
  rw [List.sum_eq_zero, zero_div]
  intro x hx
  obtain ⟨v, hv, rfl⟩ := List.mem_map.mp hx
  rw [h v hv, abs_zero]

theorem activeDuration_zero (samples : List ℝ) (sr : ℕ) (h : ∀ v ∈ samples, v = 0) :
    activeDuration samples sr = 0 := by
  have hany : samples.any
      (fun v => decide (|v| > meanAbs samples * 2)) = false := by
    rw [List.any_eq_false]
    intro v hv
    rw [h v hv, meanAbs_zero samples h]
    simp
  simp only [activeDuration]
  rw [hany]
  simp

theorem mem_of_mem_chunksOf (l : List ℝ) (n : ℕ) (c : List ℝ)
    (hc : c ∈ chunksOf l n) : ∀ x ∈ c, x ∈ l := by
  unfold chunksOf at hc
  obtain ⟨j, _, rfl⟩ := List.mem_map.mp hc
  intro x hx
  exact List.drop_subset _ _ (List.take_subset _ _ hx)

theorem chunkRms_zero (c : List ℝ) (h : ∀ x ∈ c, x = 0) : chunkRms c = 0 := by
  unfold chunkRms
  rw [List.sum_eq_zero, zero_div, Real.sqrt_zero]
  intro x hx
  obtain ⟨v, hv, rfl⟩ := List.mem_map.mp hx
  rw [h v hv]
  norm_num

theorem rmsProfile_zero (samples : List ℝ) (n : ℕ) (h : ∀ v ∈ samples, v = 0) :
    ∀ r ∈ rmsProfile samples n, r = 0 := by
  intro r hr
  unfold rmsProfile at hr
  obtain ⟨c, hc, hcr⟩ := List.mem_filterMap.mp hr
  by_cases hlen : c.length = 0
  · rw [if_pos hlen] at hcr
    cases hcr
  · rw [if_neg hlen, Option.some_inj] at hcr
    rw [← hcr]
    exact chunkRms_zero c (fun x hx => h x (mem_of_mem_chunksOf samples n c hc x hx))

theorem dftCoeff_zero (x : List ℝ) (k : ℕ) (h : ∀ v ∈ x, v = 0) :
    dftCoeff x k = 0 := by
  unfold dftCoeff
  apply Finset.sum_eq_zero
  intro j hj
  have hj2 : j < x.length := Finset.mem_range.mp hj
  have hv : x.getD j 0 = 0 := by
    refine h _ ?_
    rw [x.getD_eq_getElem 0 hj2]
    exact List.getElem_mem hj2
  rw [hv]
  simp

theorem magnitudes_zero (x : List ℝ) (h : ∀ v ∈ x, v = 0) :
    ∀ m ∈ magnitudes x, m = 0 := by
  intro m hm
  unfold magnitudes at hm
  obtain ⟨k, _, rfl⟩ := List.mem_map.mp hm
  rw [dftCoeff_zero x k h]
  simp

theorem totalMag_zero (x : List ℝ) (h : ∀ v ∈ x, v = 0) : totalMag x = 0 :=
  List.sum_eq_zero (magnitudes_zero x h)

theorem magnitudes_nonneg (x : List ℝ) : ∀ m ∈ magnitudes x, 0 ≤ m := by
  intro m hm
  unfold magnitudes at hm
  obtain ⟨k, _, rfl⟩ := List.mem_map.mp hm
  exact Complex.abs.nonneg _

theorem totalMag_nonneg (x : List ℝ) : 0 ≤ totalMag x :=
  List.sum_nonneg (magnitudes_nonneg x)

theorem energyDistribution_zero (x : List ℝ) (sr : ℕ) (h : ∀ v ∈ x, v = 0) :
    energyDistribution x sr = some (0, 0, 0) := by
  have hnp : ¬(totalMag x > 0) := by
    rw [totalMag_zero x h]
    exact lt_irrefl 0
  simp only [energyDistribution]
  rw [if_neg hnp]

theorem create_fingerprint_ok (samples : List ℝ) (sr : ℕ)
    (hne : samples ≠ []) (hsr : 100 ≤ sr) :
    create_fingerprint samples sr = Except.ok
      { duration := (samples.length : ℝ) / sr
        active_duration := activeDuration samples sr
        peak_level := peakLevel samples
        mean_level := meanAbs samples
        rms_profile := (rmsProfile samples (sr / 100)).take 50
        top_frequencies := topFrequencies samples sr
        energy_distribution := energyDistribution samples sr } := by
  unfold create_fingerprint
  rw [if_neg (Nat.div_pos hsr (by norm_num)).ne',
    if_neg (by simp [List.isEmpty_iff, hne])]

/-- Claim C2 counterexample: on the empty sample window `create_fingerprint`
raises (`np.max` of a zero-size array), so it does not return a well-formed
degenerate fingerprint and the claim "never raises an exception, including
on the empty sample window" is false. -/
theorem C2_counterexample :
    create_fingerprint [] 44100 =
      Except.error "zero-size array to reduction operation maximum" := by
  unfold create_fingerprint
  rw [if_neg (by norm_num)]
  rfl

/-- Claim C2 (amended): for every nonempty all-zero (silent) window at a
sample rate of at least 100 Hz (so the 10 ms chunk size is nonzero),
`create_fingerprint` returns a well-formed degenerate fingerprint: zero
`active_duration`, zero peak and mean levels, an all-zero RMS profile, and
an all-zero energy distribution (the whole-window `duration` is
`len/sample_rate`, not zero). The empty window instead raises `ValueError`
(`np.max` of an empty array), as does any sample rate below 100
(`range` with zero step). -/
theorem C2_silent_window (samples : List ℝ) (sr : ℕ)
    (hne : samples ≠ []) (hsr : 100 ≤ sr) (hz : ∀ v ∈ samples, v = 0) :
    ∃ fp, create_fingerprint samples sr = Except.ok fp ∧
      fp.duration = (samples.length : ℝ) / sr ∧
      fp.active_duration = 0 ∧ fp.peak_level = 0 ∧ fp.mean_level = 0 ∧
      (∀ r ∈ fp.rms_profile, r = 0) ∧
      fp.energy_distribution = some (0, 0, 0) := by
  refine ⟨_, create_fingerprint_ok samples sr hne hsr, rfl,
    activeDuration_zero samples sr hz, peakLevel_zero samples hz,
    meanAbs_zero samples hz, ?_, energyDistribution_zero samples sr hz⟩
  intro r hr
  exact rmsProfile_zero samples (sr / 100) hz r (List.take_subset _ _ hr)

/-- Witness for C2: the one-sample silent window `[0]` at 100 Hz. -/
theorem C2_witness :
    (([(0 : ℝ)] ≠ []) ∧ 100 ≤ 100 ∧ (∀ v ∈ [(0 : ℝ)], v = 0)) ∧
    (∃ fp, create_fingerprint [(0 : ℝ)] 100 = Except.ok fp ∧
      fp.duration = (([(0 : ℝ)].length : ℝ)) / 100 ∧
      fp.active_duration = 0 ∧ fp.peak_level = 0 ∧ fp.mean_level = 0 ∧
      (∀ r ∈ fp.rms_profile, r = 0) ∧
      fp.energy_distribution = some (0, 0, 0)) :=
  ⟨⟨by simp, le_refl 100, by simp⟩,
    C2_silent_window [0] 100 (by simp) (le_refl 100) (by simp)⟩

/-! ## Claim C7 -/

theorem list_sum_eq_sum_getD (l : List ℝ) :
    l.sum = ∑ i ∈ Finset.range l.length, l.getD i 0 := by
  induction l with
  | nil => simp
  | cons a t ih =>
    rw [List.sum_cons, List.length_cons, Finset.sum_range_succ']
    simp only [List.getD_cons_succ, List.getD_cons_zero]
    rw [ih]
    ring

theorem getD_magnitudes_nonneg (x : List ℝ) (k : ℕ) :
    0 ≤ (magnitudes x).getD k 0 := by
  by_cases h : k < (magnitudes x).length
  · rw [List.getD_eq_getElem _ _ h]
    exact magnitudes_nonneg x _ (List.getElem_mem h)
  · rw [List.getD_eq_default _ _ (le_of_not_lt h)]

theorem energyBands_partition (x : List ℝ) (sr : ℕ) :
    (energyBands x sr).1 + (energyBands x sr).2.1 + (energyBands x sr).2.2 =
      totalMag x := by
  unfold energyBands totalMag
  rw [list_sum_eq_sum_getD, ← Finset.sum_add_distrib, ← Finset.sum_add_distrib]
  apply Finset.sum_congr rfl
  intro k _
  by_cases h1 : freqOf sr x.length k < 500
  · rw [if_pos h1, if_neg (fun hc => absurd h1 (not_lt.mpr hc.1)),
      if_neg (not_le.mpr (h1.trans (by norm_num)))]
    ring
  · by_cases h2 : freqOf sr x.length k < 2000
    · rw [if_neg h1, if_pos ⟨not_lt.mp h1, h2⟩, if_neg (not_le.mpr h2)]
      ring
    · rw [if_neg h1, if_neg (fun hc => absurd hc.2 h2), if_pos (not_lt.mp h2)]
      ring

theorem energyBands_nonneg (x : List ℝ) (sr : ℕ) :
    0 ≤ (energyBands x sr).1 ∧ 0 ≤ (energyBands x sr).2.1 ∧
    0 ≤ (energyBands x sr).2.2 := by
  simp only [energyBands]
  refine ⟨?_, ?_, ?_⟩ <;>
    exact Finset.sum_nonneg (fun k _ => by
      split_ifs
      · exact getD_magnitudes_nonneg x k
      · exact le_refl 0)

theorem energyBands_le_total (x : List ℝ) (sr : ℕ) :
    (energyBands x sr).1 ≤ totalMag x ∧
    (energyBands x sr).2.1 ≤ totalMag x ∧
    (energyBands x sr).2.2 ≤ totalMag x := by
  obtain ⟨h1, h2, h3⟩ := energyBands_nonneg x sr
  have hp := energyBands_partition x sr
  refine ⟨?_, ?_, ?_⟩ <;> linarith

/-- Claim C7: for every nonempty sample window at a sample rate of at least
100 Hz, the low/mid/high energy fractions are each in `[0, 1]`, sum exactly
to 1 whenever the total spectral magnitude is positive, and are all exactly
zero when the window is all-zero. -/
theorem C7_energy_fractions (samples : List ℝ) (sr : ℕ)
    (hne : samples ≠ []) (hsr : 100 ≤ sr) :
    ∃ fp, create_fingerprint samples sr = Except.ok fp ∧
      ∃ lo mi hi, fp.energy_distribution = some (lo, mi, hi) ∧
        0 ≤ lo ∧ lo ≤ 1 ∧ 0 ≤ mi ∧ mi ≤ 1 ∧ 0 ≤ hi ∧ hi ≤ 1 ∧
        (0 < totalMag samples → lo + mi + hi = 1) ∧
        ((∀ v ∈ samples, v = 0) → lo = 0 ∧ mi = 0 ∧ hi = 0) := by
  refine ⟨_, create_fingerprint_ok samples sr hne hsr, ?_⟩
  show ∃ lo mi hi, energyDistribution samples sr = some (lo, mi, hi) ∧ _
  obtain ⟨hb1, hb2, hb3⟩ := energyBands_nonneg samples sr
  obtain ⟨hl1, hl2, hl3⟩ := energyBands_le_total samples sr
  by_cases ht : totalMag samples > 0
  · refine ⟨(energyBands samples sr).1 / totalMag samples,
      (energyBands samples sr).2.1 / totalMag samples,
      (energyBands samples sr).2.2 / totalMag samples, ?_, ?_, ?_, ?_, ?_, ?_, ?_, ?_, ?_⟩
    · simp only [energyDistribution]
      rw [if_pos ht]
    · exact div_nonneg hb1 (totalMag_nonneg samples)
    · exact (div_le_one ht).mpr hl1
    · exact div_nonneg hb2 (totalMag_nonneg samples)
    · exact (div_le_one ht).mpr hl2
    · exact div_nonneg hb3 (totalMag_nonneg samples)
    · exact (div_le_one ht).mpr hl3
    · intro _
      rw [div_add_div_same, div_add_div_same, energyBands_partition,
        div_self ht.ne']
    · intro hz
      exact absurd (totalMag_zero samples hz) ht.ne'
  · refine ⟨0, 0, 0, ?_, le_refl 0, zero_le_one, le_refl 0, zero_le_one,
      le_refl 0, zero_le_one, fun h => absurd h ht, fun _ => ⟨rfl, rfl, rfl⟩⟩
    simp only [energyDistribution]
    rw [if_neg ht]

/-- Witness for C7: the one-sample window `[1]` at 100 Hz. -/
theorem C7_witness :
    (([(1 : ℝ)] ≠ []) ∧ 100 ≤ 100) ∧
    (∃ fp, create_fingerprint [(1 : ℝ)] 100 = Except.ok fp ∧
      ∃ lo mi hi, fp.energy_distribution = some (lo, mi, hi) ∧
        0 ≤ lo ∧ lo ≤ 1 ∧ 0 ≤ mi ∧ mi ≤ 1 ∧ 0 ≤ hi ∧ hi ≤ 1 ∧
        (0 < totalMag [(1 : ℝ)] → lo + mi + hi = 1) ∧
        ((∀ v ∈ [(1 : ℝ)], v = 0) → lo = 0 ∧ mi = 0 ∧ hi = 0)) :=
  ⟨⟨by simp, le_refl 100⟩, C7_energy_fractions [1] 100 (by simp) (le_refl 100)⟩

/-! ## Claim C8 -/

theorem centeredDot_self_eq (x : List ℝ) :
    centeredDot x x = ∑ i ∈ Finset.range x.length, (x.getD i 0 - lmean x) ^ 2 := by
  unfold centeredDot
  rw [min_self]
  apply Finset.sum_congr rfl
  intro i _
  ring

theorem centeredDot_self_nonneg (x : List ℝ) : 0 ≤ centeredDot x x := by
  rw [centeredDot_self_eq]
  exact Finset.sum_nonneg fun i _ => sq_nonneg _

theorem centeredDot_self_pos (x : List ℝ) (i j : ℕ) (hi : i < x.length)
    (hj : j < x.length) (hij : x.getD i 0 ≠ x.getD j 0) :
    0 < centeredDot x x := by
  rcases lt_or_eq_of_le (centeredDot_self_nonneg x) with h | h
  · exact h
  · exfalso
    rw [centeredDot_self_eq] at h
    have hall := (Finset.sum_eq_zero_iff_of_nonneg
      (fun k _ => sq_nonneg (x.getD k 0 - lmean x))).mp h.symm
    have h1 := hall i (Finset.mem_range.mpr hi)
    have h2 := hall j (Finset.mem_range.mpr hj)
    rw [sq_eq_zero_iff, sub_eq_zero] at h1 h2
    exact hij (h1.trans h2.symm)

theorem pearson_self (x : List ℝ) (hpos : 0 < centeredDot x x) :
    pearson x x = some 1 := by
  unfold pearson
  rw [if_neg (fun h => hpos.ne' (h.elim id id))]
  congr 1
  rw [Real.mul_self_sqrt (le_of_lt hpos)]
  exact div_self hpos.ne'

theorem normalizeProfile_length (l : List ℝ) :
    (normalizeProfile l).length = l.length := by
  unfold normalizeProfile
  split_ifs <;> simp

theorem normalizeProfile_getD (l : List ℝ) (i : ℕ) (hi : i < l.length) :
    (normalizeProfile l).getD i 0 =
      if listMax l > 0 then l.getD i 0 / listMax l else l.getD i 0 := by
  unfold normalizeProfile
  split_ifs with h
  · rw [List.getD_eq_getElem _ _ (by simpa using hi), List.getElem_map,
      List.getD_eq_getElem _ _ hi]
  · rfl

theorem normalizeProfile_ne (l : List ℝ) (i j : ℕ) (hi : i < l.length)
    (hj : j < l.length) (hij : l.getD i 0 ≠ l.getD j 0) :
    (normalizeProfile l).getD i 0 ≠ (normalizeProfile l).getD j 0 := by
  rw [normalizeProfile_getD l i hi, normalizeProfile_getD l j hj]
  split_ifs with h
  · intro hc
    apply hij
    have h2 : l.getD i 0 / listMax l * listMax l =
        l.getD j 0 / listMax l * listMax l := by rw [hc]
    rw [div_mul_cancel₀ _ h.ne', div_mul_cancel₀ _ h.ne'] at h2
    exact h2
  · exact hij

/-- Claim C8: reflexivity of `compare_fingerprints` on a non-degenerate
fingerprint (positive active duration and peak level, an energy distribution
present, and a non-constant nonempty RMS profile, witnessed by two indices
with different values): comparing the fingerprint with itself gives exactly
1.0 (all four component scores evaluate to 1). -/
theorem C8_compare_reflexive (fp : Fingerprint) (e : ℝ × ℝ × ℝ) (i j : ℕ)
    (hdur : 0 < fp.active_duration) (hpeak : 0 < fp.peak_level)
    (hene : fp.energy_distribution = some e)
    (hi : i < fp.rms_profile.length) (hj : j < fp.rms_profile.length)
    (hij : fp.rms_profile.getD i 0 ≠ fp.rms_profile.getD j 0) :
    compare_fingerprints fp fp = 1 := by
  have hne : fp.rms_profile ≠ [] := by
    intro h
    rw [h] at hi
    simp at hi
  have htake : fp.rms_profile.take
      (min fp.rms_profile.length fp.rms_profile.length) = fp.rms_profile := by
    rw [min_self, List.take_length]
  have hupos : 0 < centeredDot (normalizeProfile fp.rms_profile)
      (normalizeProfile fp.rms_profile) := by
    apply centeredDot_self_pos _ i j
    · rw [normalizeProfile_length]
      exact hi
    · rw [normalizeProfile_length]
      exact hj
    · exact normalizeProfile_ne _ i j hi hj hij
  have hd : fp.active_duration > 0 ∧ fp.active_duration > 0 := ⟨hdur, hdur⟩
  have hp2 : fp.peak_level > 0 ∧ fp.peak_level > 0 := ⟨hpeak, hpeak⟩
  have hr : fp.rms_profile ≠ [] ∧ fp.rms_profile ≠ [] := ⟨hne, hne⟩
  simp only [compare_fingerprints, compareScores, htake]
  rw [if_pos hd, if_pos hp2, if_pos hr, hene, pearson_self _ hupos]
  simp
  norm_num

/-- Witness for C8: the concrete non-degenerate fingerprint compares to itself
as exactly 1. -/
theorem C8_witness :
    ((0 : ℝ) < fpNondegenerate.active_duration ∧
     (0 : ℝ) < fpNondegenerate.peak_level ∧
     fpNondegenerate.energy_distribution = some (1, 0, 0) ∧
     0 < fpNondegenerate.rms_profile.length ∧
     1 < fpNondegenerate.rms_profile.length ∧
     fpNondegenerate.rms_profile.getD 0 0 ≠ fpNondegenerate.rms_profile.getD 1 0) ∧
    compare_fingerprints fpNondegenerate fpNondegenerate = 1 :=
  ⟨⟨by norm_num [fpNondegenerate], by norm_num [fpNondegenerate], rfl,
    by norm_num [fpNondegenerate], by norm_num [fpNondegenerate],
    by norm_num [fpNondegenerate]⟩,
   C8_compare_reflexive fpNondegenerate (1, 0, 0) 0 1
     (by norm_num [fpNondegenerate]) (by norm_num [fpNondegenerate]) rfl
     (by norm_num [fpNondegenerate]) (by norm_num [fpNondegenerate])
     (by norm_num [fpNondegenerate])⟩

/-! ## Claim C4 -/

theorem sum_mul_self_cs (s : Finset ℕ) (f g : ℕ → ℝ) :
    (∑ i ∈ s, f i * g i) ^ 2 ≤ (∑ i ∈ s, f i * f i) * (∑ i ∈ s, g i * g i) := by
  have h := Finset.sum_mul_sq_le_sq_mul_sq s f g
  simpa [pow_two] using h

theorem pearson_bounds (x y : List ℝ) (hlen : x.length = y.length) (c : ℝ)
    (h : pearson x y = some c) : -1 ≤ c ∧ c ≤ 1 := by
  unfold pearson at h
  split_ifs at h with h0
  push_neg at h0
  obtain ⟨hx0, hy0⟩ := h0
  rw [Option.some_inj] at h
  subst h
  have hx : 0 < centeredDot x x := (centeredDot_self_nonneg x).lt_of_ne (Ne.symm hx0)
  have hy : 0 < centeredDot y y := (centeredDot_self_nonneg y).lt_of_ne (Ne.symm hy0)
  have hset : Finset.range (min x.length y.length) = Finset.range x.length := by
    rw [hlen, min_self]
  have cdxy : centeredDot x y = ∑ i ∈ Finset.range x.length,
      (x.getD i 0 - lmean x) * (y.getD i 0 - lmean y) := by
    unfold centeredDot
    rw [hset]
  have cdxx : centeredDot x x = ∑ i ∈ Finset.range x.length,
      (x.getD i 0 - lmean x) * (x.getD i 0 - lmean x) := by
    unfold centeredDot
    rw [min_self]
  have cdyy : centeredDot y y = ∑ i ∈ Finset.range x.length,
      (y.getD i 0 - lmean y) * (y.getD i 0 - lmean y) := by
    unfold centeredDot
    rw [min_self, ← hlen]
  have hcs : (centeredDot x y) ^ 2 ≤ centeredDot x x * centeredDot y y := by
    rw [cdxy, cdxx, cdyy]
    exact sum_mul_self_cs _ _ _
  have hdenpos : 0 < Real.sqrt (centeredDot x x) * Real.sqrt (centeredDot y y) :=
    mul_pos (Real.sqrt_pos.mpr hx) (Real.sqrt_pos.mpr hy)
  have habs : |centeredDot x y| ≤
      Real.sqrt (centeredDot x x) * Real.sqrt (centeredDot y y) := by
    rw [← Real.sqrt_sq_eq_abs, ← Real.sqrt_mul (centeredDot_self_nonneg x)]
    exact Real.sqrt_le_sqrt hcs
  have habs2 : |centeredDot x y /
      (Real.sqrt (centeredDot x x) * Real.sqrt (centeredDot y y))| ≤ 1 := by
    rw [abs_div, abs_of_pos hdenpos]
    exact (div_le_one hdenpos).mpr habs
  exact abs_le.mp habs2

theorem list_sum_le_length (l : List ℝ) (h : ∀ v ∈ l, v ≤ 1) :
    l.sum ≤ l.length := by
  induction l with
  | nil => simp
  | cons a t ih =>
    rw [List.sum_cons, List.length_cons]
    push_cast
    have h1 := h a (List.mem_cons_self a t)
    have h2 := ih (fun v hv => h v (List.mem_cons_of_mem a hv))
    push_cast at h2
    linarith

theorem neg_length_le_list_sum (l : List ℝ) (h : ∀ v ∈ l, -1 ≤ v) :
    -(l.length : ℝ) ≤ l.sum := by
  induction l with
  | nil => simp
  | cons a t ih =>
    rw [List.sum_cons, List.length_cons]
    push_cast
    have h1 := h a (List.mem_cons_self a t)
    have h2 := ih (fun v hv => h v (List.mem_cons_of_mem a hv))
    push_cast at h2
    linarith

theorem mean_bounds (l : List ℝ) (hne : l ≠ []) (h : ∀ v ∈ l, -1 ≤ v ∧ v ≤ 1) :
    -1 ≤ l.sum / l.length ∧ l.sum / l.length ≤ 1 := by
  have hlpos : (0 : ℝ) < l.length := by
    have := List.length_pos.mpr hne
    exact_mod_cast this
  constructor
  · rw [le_div_iff₀ hlpos]
    have := neg_length_le_list_sum l (fun v hv => (h v hv).1)
    linarith
  · rw [div_le_one hlpos]
    exact list_sum_le_length l (fun v hv => (h v hv).2)

theorem compareScores_bounded (fp1 fp2 : Fingerprint) :
    ∀ v ∈ compareScores fp1 fp2, -1 ≤ v ∧ v ≤ 1 := by
  intro v hv
  simp only [compareScores, List.mem_append] at hv
  rcases hv with ((hv | hv) | hv) | hv
  · by_cases hc : fp1.active_duration > 0 ∧ fp2.active_duration > 0
    · rw [if_pos hc] at hv
      simp only [List.mem_singleton] at hv
      subst hv
      have hq : 0 ≤ |fp1.active_duration - fp2.active_duration| /
          max fp1.active_duration fp2.active_duration * 2 :=
        mul_nonneg (div_nonneg (abs_nonneg _)
          (le_trans hc.1.le (le_max_left _ _))) (by norm_num)
      constructor
      · exact le_trans (by norm_num) (le_max_left 0 _)
      · exact max_le zero_le_one (by linarith)
    · rw [if_neg hc] at hv
      cases hv
  · by_cases hc : fp1.peak_level > 0 ∧ fp2.peak_level > 0
    · rw [if_pos hc] at hv
      simp only [List.mem_singleton] at hv
      subst hv
      have hq : 0 ≤ |fp1.peak_level - fp2.peak_level| /
          max fp1.peak_level fp2.peak_level :=
        div_nonneg (abs_nonneg _) (le_trans hc.1.le (le_max_left _ _))
      constructor
      · exact le_trans (by norm_num) (le_max_left 0 _)
      · exact max_le zero_le_one (by linarith)
    · rw [if_neg hc] at hv
      cases hv
  · by_cases hc : fp1.rms_profile ≠ [] ∧ fp2.rms_profile ≠ []
    · rw [if_pos hc] at hv
      have hlen : (normalizeProfile (fp1.rms_profile.take
          (min fp1.rms_profile.length fp2.rms_profile.length))).length =
          (normalizeProfile (fp2.rms_profile.take
          (min fp1.rms_profile.length fp2.rms_profile.length))).length := by
        rw [normalizeProfile_length, normalizeProfile_length,
          List.length_take, List.length_take]
        omega
      cases hp : pearson (normalizeProfile (fp1.rms_profile.take
          (min fp1.rms_profile.length fp2.rms_profile.length)))
          (normalizeProfile (fp2.rms_profile.take
          (min fp1.rms_profile.length fp2.rms_profile.length))) with
      | none =>
        rw [hp] at hv
        cases hv
      | some c =>
        rw [hp] at hv
        simp only [List.mem_singleton] at hv
        subst hv
        exact pearson_bounds _ _ hlen v hp
    · rw [if_neg hc] at hv
      cases hv
  · cases he1 : fp1.energy_distribution with
    | none =>
      rw [he1] at hv
      cases hv
    | some e1 =>
      cases he2 : fp2.energy_distribution with
      | none =>
        rw [he1, he2] at hv
        cases hv
      | some e2 =>
        rw [he1, he2] at hv
        simp only [List.mem_singleton] at hv
        subst hv
        have hq : 0 ≤ (|e1.1 - e2.1| + |e1.2.1 - e2.2.1| + |e1.2.2 - e2.2.2|) / 3 := by
          have := abs_nonneg (e1.1 - e2.1)
          have := abs_nonneg (e1.2.1 - e2.2.1)
          have := abs_nonneg (e1.2.2 - e2.2.2)
          positivity
        constructor
        · exact le_trans (by norm_num) (le_max_left 0 _)
        · exact max_le zero_le_one (by linarith)

/-- Claim C4 (amended): `compare_fingerprints` returns a value in the closed
interval `[-1, 1]`, the arithmetic mean of the computable component scores
(0.0 when none is computable). The duration, peak and energy components are
clamped to `[0, 1]`, but the shape component is the raw, unclamped Pearson
correlation, which lies in `[-1, 1]`, so the result can be negative. -/
theorem C4_compare_bounds (fp1 fp2 : Fingerprint) :
    -1 ≤ compare_fingerprints fp1 fp2 ∧ compare_fingerprints fp1 fp2 ≤ 1 := by
  unfold compare_fingerprints
  by_cases hnil : compareScores fp1 fp2 = []
  · rw [if_pos hnil]
    norm_num
  · rw [if_neg hnil]
    exact mean_bounds _ hnil (compareScores_bounded fp1 fp2)

theorem listMax_pair (a b : ℝ) : listMax [a, b] = max a b := rfl

theorem listMax_01 : listMax [(0 : ℝ), 1] = 1 := by
  rw [listMax_pair]
  exact max_eq_right zero_le_one

theorem listMax_10 : listMax [(1 : ℝ), 0] = 1 := by
  rw [listMax_pair]
  exact max_eq_left zero_le_one

theorem normalize_01 : normalizeProfile [(0 : ℝ), 1] = [0, 1] := by
  unfold normalizeProfile
  rw [listMax_01, if_pos one_pos]
  norm_num

theorem normalize_10 : normalizeProfile [(1 : ℝ), 0] = [1, 0] := by
  unfold normalizeProfile
  rw [listMax_10, if_pos one_pos]
  norm_num

theorem cd_01_01 : centeredDot [(0 : ℝ), 1] [(0 : ℝ), 1] = 1 / 2 := by
  simp [centeredDot, Finset.sum_range_succ, lmean]
  norm_num

theorem cd_10_10 : centeredDot [(1 : ℝ), 0] [(1 : ℝ), 0] = 1 / 2 := by
  simp [centeredDot, Finset.sum_range_succ, lmean]
  norm_num

theorem cd_01_10 : centeredDot [(0 : ℝ), 1] [(1 : ℝ), 0] = -(1 / 2) := by
  simp [centeredDot, Finset.sum_range_succ, lmean]
  norm_num

theorem pearson_01_10 : pearson [(0 : ℝ), 1] [(1 : ℝ), 0] = some (-1) := by
  unfold pearson
  rw [cd_01_01, cd_10_10, cd_01_10]
  rw [if_neg (by norm_num)]
  congr 1
  rw [Real.mul_self_sqrt (by norm_num : (0 : ℝ) ≤ 1 / 2)]
  norm_num

/-- Claim C4 counterexample: two fingerprints whose only shared feature is
the RMS profile, one rising `[0, 1]` and one falling `[1, 0]`, give a raw
Pearson correlation of `-1` as the sole score, so `compare_fingerprints`
returns `-1`, outside the claimed interval `[0, 1]`. -/
theorem C4_counterexample :
    compare_fingerprints fpShapeRising fpShapeOnly = -1 := by
  have hscores : compareScores fpShapeRising fpShapeOnly = [-1] := by
    simp only [compareScores, fpShapeRising, fpShapeOnly]
    norm_num
    rw [normalize_01, normalize_10, pearson_01_10]
    simp
  unfold compare_fingerprints
  rw [hscores]
  norm_num

/-! ## Claim C3 -/

theorem bestFold_spec (fp : Fingerprint) :
    ∀ (l : List (String × Fingerprint)) (acc : Option String × ℝ),
      (l.foldl (bestStep fp) acc = acc ∨
        ∃ n f, (n, f) ∈ l ∧
          l.foldl (bestStep fp) acc = (some n, compare_fingerprints fp f) ∧
          acc.2 < compare_fingerprints fp f) ∧
      (l.foldl (bestStep fp) acc).2 =
        (l.map (fun e => compare_fingerprints fp e.2)).foldl max acc.2 := by
  intro l
  induction l with
  | nil => exact fun acc => ⟨Or.inl rfl, rfl⟩
  | cons e t ih =>
    intro acc
    simp only [List.foldl_cons, List.map_cons]
    obtain ⟨ih1, ih2⟩ := ih (bestStep fp acc e)
    constructor
    · rcases ih1 with h | ⟨n, f, hmem, heq, hlt⟩
      · rw [h]
        unfold bestStep
        split_ifs with hc
        · exact Or.inr ⟨e.1, e.2, List.mem_cons_self e t, rfl, hc⟩
        · exact Or.inl rfl
      · refine Or.inr ⟨n, f, List.mem_cons_of_mem e hmem, heq, ?_⟩
        have hstep : acc.2 ≤ (bestStep fp acc e).2 := by
          unfold bestStep
          split_ifs with hc
          · exact le_of_lt hc
          · exact le_refl _
        exact lt_of_le_of_lt hstep hlt
    · rw [ih2]
      congr 1
      unfold bestStep
      split_ifs with hc
      · exact (max_eq_right (le_of_lt hc)).symm
      · exact (max_eq_left (not_lt.mp hc)).symm

/-- Claim C3 (amended): `identify_sound` builds a fingerprint for the input
(propagating its exceptions) and folds over the store tracking
`(best_match, best_score)` from `(None, 0.0)`, replacing only on a strictly
greater score. Hence (a) an empty store always yields `(None, 0.0)`;
(b) the reported score is the maximum of the per-entry comparison scores
clamped below at 0 — a negative best score is reported as `0.0`, not as the
best score seen; (c) a name is returned only when the tracked score reaches
`min_confidence` AND some entry scored strictly above 0, and that name is a
highest-scoring entry; (d) below `min_confidence` the name is `None`. -/
theorem C3_identify_rule (store : List (String × Fingerprint))
    (fp : Fingerprint) (samples : List ℝ) (sr : ℕ) (minConf : ℝ) :
    (identify_sound [] samples sr minConf =
      (create_fingerprint samples sr).map (fun _ => (none, 0))) ∧
    (identify_sound store samples sr minConf =
      (create_fingerprint samples sr).map (fun f => identifyCore f store minConf)) ∧
    ((identifyCore fp store minConf).2 =
      (store.map (fun e => compare_fingerprints fp e.2)).foldl max 0) ∧
    (∀ n, (identifyCore fp store minConf).1 = some n →
      minConf ≤ (identifyCore fp store minConf).2 ∧
      0 < (identifyCore fp store minConf).2 ∧
      ∃ f, (n, f) ∈ store ∧
        compare_fingerprints fp f = (identifyCore fp store minConf).2) ∧
    ((identifyCore fp store minConf).2 < minConf →
      (identifyCore fp store minConf).1 = none) := by
  obtain ⟨hfold, hmax⟩ := bestFold_spec fp store ((none : Option String), (0 : ℝ))
  refine ⟨?_, rfl, hmax, ?_, ?_⟩
  · cases h : create_fingerprint samples sr with
    | error e => simp [identify_sound, h, Except.map]
    | ok f => simp [identify_sound, h, Except.map, identifyCore, ite_self]
  · intro n hn
    simp only [identifyCore] at hn ⊢
    split_ifs at hn ⊢ with hge
    · rcases hfold with h | ⟨n2, f, hmem, heq, hlt⟩
      · rw [h] at hn
        cases hn
      · rw [heq] at hn hge ⊢
        simp only [Option.some_inj] at hn
        subst hn
        exact ⟨hge, hlt, f, hmem, rfl⟩
  · intro hlt
    simp only [identifyCore] at hlt ⊢
    split_ifs with hge
    · exact absurd hge (not_le.mpr hlt)
    · rfl

theorem rmsProfile_01 : rmsProfile [(0 : ℝ), 1] 1 = [0, 1] := by
  unfold rmsProfile chunksOf
  norm_num [List.range_succ]
  simp [List.filterMap, chunkRms]

theorem create01_rms :
    ∃ fp, create_fingerprint [(0 : ℝ), 1] 100 = Except.ok fp ∧
      fp.rms_profile = [0, 1] := by
  refine ⟨_, create_fingerprint_ok [0, 1] 100 (by simp) (le_refl 100), ?_⟩
  show (rmsProfile [(0 : ℝ), 1] (100 / 100)).take 50 = [0, 1]
  norm_num [rmsProfile_01]

theorem compare_rising_falling (fp : Fingerprint) (h : fp.rms_profile = [0, 1]) :
    compare_fingerprints fp fpShapeOnly = -1 := by
  have hscores : compareScores fp fpShapeOnly = [-1] := by
    simp only [compareScores, fpShapeOnly, h]
    cases he : fp.energy_distribution with
    | none =>
      norm_num
      rw [normalize_01, normalize_10, pearson_01_10]
      simp
    | some e =>
      norm_num
      rw [normalize_01, normalize_10, pearson_01_10]
      simp
  unfold compare_fingerprints
  rw [hscores]
  norm_num

/-- Claim C3 counterexample: with one stored fingerprint whose RMS profile is
`[1, 0]` and input samples `[0, 1]` at 100 Hz, the only comparison score is
`-1` (the best score seen), yet `identify_sound` returns `(None, 0.0)` —
not `(None, -1)` — because the best-score tracker starts at `0.0` and only
replaces on strictly greater scores. This refutes "the caller always learns
the best score": with default `min_confidence = 0.7` the claim demands
`(none, -1)`. -/
theorem C3_counterexample :
    identify_sound [("ping", fpShapeOnly)] [(0 : ℝ), 1] 100 (7/10) =
      Except.ok (none, 0) ∧
    (create_fingerprint [(0 : ℝ), 1] 100).map
      (fun fp => compare_fingerprints fp fpShapeOnly) = Except.ok (-1) := by
  obtain ⟨fp, hok, hrms⟩ := create01_rms
  have hcmp := compare_rising_falling fp hrms
  constructor
  · unfold identify_sound
    rw [hok]
    simp only [Except.map]
    congr 1
    simp only [identifyCore, List.foldl_cons, List.foldl_nil, bestStep, hcmp]
    norm_num
  · rw [hok]
    simp only [Except.map]
    rw [hcmp]

/-- Witness for C3: a store holding one fingerprint with peak level 1,
identified against itself with `min_confidence = 1/2`, returns its name, and
the amended theorem yields the best-entry facts for it. -/
theorem C3_witness :
    ((identifyCore fpPeakOnly [("ping", fpPeakOnly)] (1/2)).1 = some "ping") ∧
    ((1 : ℝ)/2 ≤ (identifyCore fpPeakOnly [("ping", fpPeakOnly)] (1/2)).2 ∧
     0 < (identifyCore fpPeakOnly [("ping", fpPeakOnly)] (1/2)).2 ∧
     ∃ f, ("ping", f) ∈ [("ping", fpPeakOnly)] ∧
       compare_fingerprints fpPeakOnly f =
         (identifyCore fpPeakOnly [("ping", fpPeakOnly)] (1/2)).2) := by
  have hc : compare_fingerprints fpPeakOnly fpPeakOnly = 1 := by
    have hscores : compareScores fpPeakOnly fpPeakOnly = [1] := by
      simp only [compareScores, fpPeakOnly]
      norm_num
    unfold compare_fingerprints
    rw [hscores]
    norm_num
  have h1 : (identifyCore fpPeakOnly [("ping", fpPeakOnly)] (1/2)).1 = some "ping" := by
    simp only [identifyCore, List.foldl_cons, List.foldl_nil, bestStep, hc]
    norm_num
  exact ⟨h1,
    (C3_identify_rule [("ping", fpPeakOnly)] fpPeakOnly [] 0 (1/2)).2.2.2.1 "ping" h1⟩
